import Mathlib

/-!
Verification of the scoring, labelling, fence-stripping and error-placeholder
logic of src/app.py (AI Code Review and Refactoring Agent).

The program text is shallowly embedded over `List Char`:
Python strings become `List Char`, `str.lower` becomes `pyLower`
(ASCII case folding, matching `Char.toLower`; all keywords are ASCII),
`str.strip` becomes `pyStrip` (removal of leading and trailing whitespace,
modelled over the ASCII whitespace characters recognised by
`Char.isWhitespace`), and `str.count` becomes `pyCount` (the number of
non-overlapping occurrences of a pattern, scanning from the left, which is
exactly what Python computes).  Python integers are unbounded, so scores are
`Int`.  The fallible external chat-completion call is modelled as an
`Except String String` argument: `Except.error e` is a thrown exception whose
text is `e`, `Except.ok c` is a successful response with content `c`.
-/

/-- Model of Python `str.count`, auxiliary scanner.  Walks the text one
character at a time; `skip` is the number of positions still covered by the
most recently counted occurrence (Python counts non-overlapping occurrences,
scanning left to right, so after a match the scan resumes after it). -/
def pyCountAux (p : List Char) : List Char → Nat → Nat
  | [], _ => 0
  | c :: rest, 0 =>
      if p <+: c :: rest then 1 + pyCountAux p rest (p.length - 1)
      else pyCountAux p rest 0
  | _ :: rest, skip + 1 => pyCountAux p rest skip

/-- Model of Python `text.count(p)`: the number of non-overlapping
occurrences of `p` in `text`, scanning from the left.  (For an empty pattern
Python returns `len(text) + 1`; the leading summand accounts for the final
empty match, the scanner for the others.) -/
def pyCount (p s : List Char) : Nat :=
  (if p = [] then 1 else 0) + pyCountAux p s 0

/-- Model of Python `str.lower` (ASCII case folding; every keyword searched
for by the program is ASCII). -/
def pyLower (s : List Char) : List Char := s.map Char.toLower

/-- Model of Python `str.strip`: remove leading and trailing whitespace. -/
def pyStrip (s : List Char) : List Char :=
  ((s.dropWhile Char.isWhitespace).reverse.dropWhile Char.isWhitespace).reverse

/-- src/app.py lines 89-93: the negative indicator keywords. -/
def negative_keywords : List (List Char) :=
  ["bug".data, "error".data, "issue".data, "problem".data, "inefficient".data,
   "poor".data, "bad practice".data, "unnecessary".data, "redundant".data,
   "memory leak".data, "security".data, "vulnerable".data]

/-- src/app.py lines 96-99: the positive indicator keywords. -/
def positive_keywords : List (List Char) :=
  ["good".data, "well".data, "clean".data, "efficient".data, "optimized".data,
   "best practice".data, "excellent".data, "proper".data]

/-- src/app.py lines 102-103: `sum(review_lower.count(word) for word in ws)`. -/
def keyword_total (ws : List (List Char)) (s : List Char) : Nat :=
  (ws.map (fun w => pyCount w s)).sum

/-- src/app.py line 102: total count of negative keywords in the lower-cased
review text. -/
def negative_count (t : List Char) : Nat :=
  keyword_total negative_keywords (pyLower t)

/-- src/app.py line 103: total count of positive keywords in the lower-cased
review text. -/
def positive_count (t : List Char) : Nat :=
  keyword_total positive_keywords (pyLower t)

/-- src/app.py line 106: `base_score = 70`. -/
def base_score : Int := 70

/-- src/app.py line 107: the pre-clamp score
`base_score - (negative_count * 8) + (positive_count * 5)`. -/
def nominal_score (t : List Char) : Int :=
  base_score - (negative_count t : Int) * 8 + (positive_count t : Int) * 5

/-- src/app.py lines 80-112, `calculate_quality_score`: the nominal score
clamped to [0, 100] by `max(0, min(100, score))`. -/
def calculate_quality_score (t : List Char) : Int :=
  max 0 (min 100 (nominal_score t))

/-- src/app.py lines 115-126, `get_score_class`. -/
def get_score_class (score : Int) : String :=
  if score ≥ 85 then "score-excellent"
  else if score ≥ 70 then "score-good"
  else if score ≥ 50 then "score-fair"
  else "score-poor"

/-- src/app.py lines 129-140, `get_score_label`. -/
def get_score_label (score : Int) : String :=
  if score ≥ 85 then "Excellent"
  else if score ≥ 70 then "Good"
  else if score ≥ 50 then "Fair"
  else "Needs Improvement"

/-- src/app.py line 225-226: `if refactored.startswith("```python"):
refactored = refactored[9:]`. -/
def dropLeadingPython (s : List Char) : List Char :=
  if "```python".data <+: s then s.drop 9 else s

/-- src/app.py line 227-228: `if refactored.startswith("```"):
refactored = refactored[3:]`. -/
def dropLeadingFence (s : List Char) : List Char :=
  if "```".data <+: s then s.drop 3 else s

/-- src/app.py line 229-230: `if refactored.endswith("```"):
refactored = refactored[:-3]`. -/
def dropTrailingFence (s : List Char) : List Char :=
  if "```".data <:+ s then s.take (s.length - 3) else s

/-- src/app.py lines 224-232: the markdown fence clean-up performed on the
model response inside `refactor_code`: strip, drop a leading
"```python" marker, drop a leading "```" marker, drop a trailing "```"
marker, strip again. -/
def strip_code_fences (s : List Char) : List Char :=
  pyStrip (dropTrailingFence (dropLeadingFence (dropLeadingPython (pyStrip s))))

/-- src/app.py lines 143-185, `review_code`, abstracted over the outcome of
the external chat-completion call: on success the response content is
returned as is; a thrown exception is caught and converted to the textual
placeholder `"Error during code review: " ++ e`. -/
def review_code (response : Except String String) : String :=
  match response with
  | Except.ok content => content
  | Except.error e => "Error during code review: " ++ e

/-- src/app.py lines 188-234, `refactor_code`, abstracted over the outcome of
the external chat-completion call: on success the response content is
fence-stripped and returned; a thrown exception is caught and converted to
the textual placeholder `"# Error during refactoring: " ++ e`. -/
def refactor_code (response : Except String String) : String :=
  match response with
  | Except.ok content => String.mk (strip_code_fences content.data)
  | Except.error e => "# Error during refactoring: " ++ e

/-- Specification-side occurrence counter: the number of positions of `s` at
which `p` occurs as a substring, overlapping occurrences all counted.
(For an empty `p` this counts every position including the final one,
agreeing with Python.) -/
def countAll (p : List Char) : List Char → Nat
  | [] => if p = [] then 1 else 0
  | c :: rest => (if p <+: c :: rest then 1 else 0) + countAll p rest

/-- `p` is nonempty and has no nontrivial border: no proper nonempty
initial segment of `p` is also a final segment.  Distinct occurrences of
such a pattern can never overlap, which makes Python's non-overlapping
count agree with the total occurrence count. -/
def BorderFree (p : List Char) : Prop :=
  p ≠ [] ∧ ∀ k, k < p.length → 0 < k → p.take k ≠ p.drop (p.length - k)

instance (p : List Char) : Decidable (BorderFree p) :=
  decidable_of_iff
    (p ≠ [] ∧ ∀ k ∈ List.range p.length, 0 < k → p.take k ≠ p.drop (p.length - k))
    (by
      constructor
      · rintro ⟨h1, h2⟩
        exact ⟨h1, fun k hk h0 => h2 k (List.mem_range.mpr hk) h0⟩
      · rintro ⟨h1, h2⟩
        exact ⟨h1, fun k hk h0 => h2 k (List.mem_range.mp hk) h0⟩)

/-- No nonempty proper final segment of `w` starts the list `d`.  When this
holds, no occurrence of `w` can straddle the boundary of `s ++ d` for any
`s`, so occurrence counts split additively over the append. -/
def NoCross (w d : List Char) : Prop :=
  ∀ j, j < w.length → 0 < j → ¬ w.drop j <+: d

instance (w d : List Char) : Decidable (NoCross w d) :=
  decidable_of_iff
    (∀ j ∈ List.range w.length, 0 < j → ¬ w.drop j <+: d)
    (by
      constructor
      · intro h j hj h0
        exact h j (List.mem_range.mpr hj) h0
      · intro h j hj h0
        exact h j (List.mem_range.mp hj) h0)

/-- Specification-side score: clamp(70 - 8*N + 5*P, 0, 100) where N and P are
the total numbers of (possibly overlapping) substring occurrences of the
negative and positive keywords in the lower-cased text. -/
def spec_quality_score (t : List Char) : Int :=
  max 0 (min 100
    (70 - 8 * ((negative_keywords.map (fun w => countAll w (pyLower t))).sum : Int)
        + 5 * ((positive_keywords.map (fun w => countAll w (pyLower t))).sum : Int)))

/-! ### Occurrence counting lemmas -/

theorem countAll_cons (p : List Char) (c : Char) (l : List Char) :
    countAll p (c :: l) = (if p <+: c :: l then 1 else 0) + countAll p l := rfl

/-- Two occurrences of `p` at distance `d < p.length` force a border of
length `p.length - d`. -/
theorem border_of_overlap (p s : List Char) (hp : p <+: s) (d : Nat)
    (hd2 : d < p.length) (hocc : p <+: s.drop d) :
    p.take (p.length - d) = p.drop d := by
  obtain ⟨t, ht⟩ := hp
  obtain ⟨u, hu⟩ := hocc
  have hdrop : s.drop d = p.drop d ++ t := by
    rw [← ht, List.drop_append_of_le_length (le_of_lt hd2)]
  rw [hdrop] at hu
  have h := congrArg (List.take (p.length - d)) hu
  rw [List.take_append_of_le_length (by omega),
      List.take_append_of_le_length (by simp [List.length_drop])] at h
  rw [h]
  rw [show p.length - d = (p.drop d).length from (List.length_drop _ _).symm,
      List.take_length]

/-- Inside a match of a border-free pattern no further occurrence starts. -/
theorem not_occ_inside (p s : List Char) (hb : BorderFree p) (hp : p <+: s)
    (d : Nat) (hd1 : 0 < d) (hd2 : d < p.length) : ¬ p <+: s.drop d := by
  intro hocc
  refine hb.2 (p.length - d) (by omega) (by omega) ?_
  have h := border_of_overlap p s hp d hd2 hocc
  rw [show p.length - (p.length - d) = d from by omega]
  exact h

/-- Skipping one position inside a match of a border-free pattern does not
lose an occurrence. -/
theorem countAll_drop_succ (p s : List Char) (hb : BorderFree p) (hp : p <+: s)
    (d : Nat) (hd1 : 0 < d) (hd2 : d < p.length) :
    countAll p (s.drop d) = countAll p (s.drop (d + 1)) := by
  have hlen : d < s.length := lt_of_lt_of_le hd2 hp.length_le
  have h := not_occ_inside p s hb hp d hd1 hd2
  rw [List.drop_eq_getElem_cons hlen] at h ⊢
  rw [countAll_cons, if_neg h, Nat.zero_add]

/-- Occurrences of a border-free pattern matched at the front are the only
occurrences within the span of the match. -/
theorem countAll_drop_eq (p s : List Char) (hb : BorderFree p) (hp : p <+: s)
    (d : Nat) (hd1 : 0 < d) (hd2 : d ≤ p.length) :
    countAll p (s.drop d) = countAll p (s.drop p.length) := by
  have hlp : 0 < p.length := List.length_pos.mpr hb.1
  have key : ∀ n, n ≤ p.length - 1 →
      countAll p (s.drop (p.length - n)) = countAll p (s.drop p.length) := by
    intro n
    induction n with
    | zero => intro _; simp
    | succ m ih =>
      intro hm
      have step := countAll_drop_succ p s hb hp (p.length - (m + 1))
        (by omega) (by omega)
      rw [step, show p.length - (m + 1) + 1 = p.length - m from by omega]
      exact ih (by omega)
  have h := key (p.length - d) (by omega)
  rw [show p.length - (p.length - d) = d from by omega] at h
  exact h

/-- The greedy scanner agrees with the total occurrence count for border-free
patterns: `k` pending skip positions are sound as long as no occurrence
starts within them. -/
theorem pyCountAux_eq_countAll (p : List Char) (hb : BorderFree p) :
    ∀ (s : List Char) (k : Nat), (∀ j, j < k → ¬ p <+: s.drop j) →
      pyCountAux p s k = countAll p (s.drop k) := by
  intro s
  induction s with
  | nil =>
    intro k _
    simp [pyCountAux, countAll, hb.1]
  | cons c rest ih =>
    intro k hk
    cases k with
    | zero =>
      rw [List.drop_zero]
      by_cases hpre : p <+: c :: rest
      · have hlp : 0 < p.length := List.length_pos.mpr hb.1
        rw [show pyCountAux p (c :: rest) 0
              = 1 + pyCountAux p rest (p.length - 1) from by
            simp [pyCountAux, hpre]]
        rw [countAll_cons, if_pos hpre]
        have hrec := ih (p.length - 1) (by
          intro j hj hcon
          have : rest.drop j = (c :: rest).drop (j + 1) := rfl
          rw [this] at hcon
          exact not_occ_inside p (c :: rest) hb hpre (j + 1)
            (by omega) (by omega) hcon)
        rw [hrec]
        have hdrop : countAll p ((c :: rest).drop 1)
            = countAll p ((c :: rest).drop p.length) :=
          countAll_drop_eq p (c :: rest) hb hpre 1 (by omega) (by omega)
        rw [show (c :: rest).drop 1 = rest from rfl] at hdrop
        have hdc : (c :: rest).drop p.length = rest.drop (p.length - 1) := by
          cases hq : p.length with
          | zero => omega
          | succ n => simp [List.drop_succ_cons]
        rw [hdc] at hdrop
        omega
      · rw [show pyCountAux p (c :: rest) 0 = pyCountAux p rest 0 from by
            simp [pyCountAux, hpre]]
        rw [countAll_cons, if_neg hpre, Nat.zero_add]
        have := ih 0 (by intro j hj; omega)
        rw [List.drop_zero] at this
        exact this
    | succ m =>
      rw [show pyCountAux p (c :: rest) (m + 1) = pyCountAux p rest m from rfl,
          List.drop_succ_cons]
      exact ih m (by
        intro j hj hcon
        have : rest.drop j = (c :: rest).drop (j + 1) := rfl
        rw [this] at hcon
        exact hk (j + 1) (by omega) hcon)

/-- Python's non-overlapping count equals the total occurrence count for
border-free patterns. -/
theorem pyCount_eq_countAll (p s : List Char) (hb : BorderFree p) :
    pyCount p s = countAll p s := by
  unfold pyCount
  rw [if_neg hb.1, Nat.zero_add]
  have h := pyCountAux_eq_countAll p hb s 0 (by intro j hj; omega)
  rw [List.drop_zero] at h
  exact h

/-! ### Splitting occurrence counts over an append -/

/-- If no nonempty proper final segment of `p` starts `d`, an occurrence of
`p` at the front of `s ++ d` (for nonempty `s`) lies entirely within `s`. -/
theorem prefix_append_iff (p s d : List Char) (_hp : p ≠ []) (hs : s ≠ [])
    (hnc : NoCross p d) : p <+: s ++ d ↔ p <+: s := by
  constructor
  · intro h
    by_cases hl : p.length ≤ s.length
    · have h1 : p = (s ++ d).take p.length := List.prefix_iff_eq_take.mp h
      rw [List.take_append_of_le_length hl] at h1
      exact h1 ▸ List.take_prefix _ _
    · exfalso
      push_neg at hl
      have hsp : p.take s.length = s := by
        rw [List.prefix_iff_eq_take.mp h, List.take_take,
            min_eq_left (le_of_lt hl), List.take_left]
      have hdec : s ++ p.drop s.length = p := by
        have h0 := List.take_append_drop s.length p
        rw [hsp] at h0
        exact h0
      obtain ⟨u, hu⟩ := h
      rw [← hdec, List.append_assoc] at hu
      have hud : p.drop s.length ++ u = d := List.append_cancel_left hu
      exact hnc s.length hl (List.length_pos.mpr hs)
        ⟨u, hud⟩
  · intro h
    exact h.trans (List.prefix_append s d)

/-- Occurrence counts split additively over an append that no occurrence can
straddle. -/
theorem countAll_append (p s d : List Char) (hp : p ≠ []) (hnc : NoCross p d) :
    countAll p (s ++ d) = countAll p s + countAll p d := by
  induction s with
  | nil =>
    simp [countAll, hp]
  | cons c rest ih =>
    rw [List.cons_append, countAll_cons, ih]
    rw [show countAll p (c :: rest)
          = (if p <+: c :: rest then 1 else 0) + countAll p rest from rfl]
    have hiff : p <+: c :: (rest ++ d) ↔ p <+: c :: rest := by
      rw [show c :: (rest ++ d) = (c :: rest) ++ d from rfl]
      exact prefix_append_iff p (c :: rest) d hp (List.cons_ne_nil c rest) hnc
    by_cases hcc : p <+: c :: rest
    · rw [if_pos (hiff.mpr hcc), if_pos hcc]
      omega
    · rw [if_neg (fun hcon => hcc (hiff.mp hcon)), if_neg hcc]
      omega

/-- Python count splits additively over an append that no occurrence can
straddle, for border-free patterns. -/
theorem pyCount_append (w s d : List Char) (hb : BorderFree w)
    (hnc : NoCross w d) :
    pyCount w (s ++ d) = pyCount w s + pyCount w d := by
  rw [pyCount_eq_countAll _ _ hb, pyCount_eq_countAll _ _ hb,
      pyCount_eq_countAll _ _ hb]
  exact countAll_append w s d hb.1 hnc

/-- Every keyword of the program is border-free (checked by evaluation). -/
theorem borderFree_negatives : ∀ w ∈ negative_keywords, BorderFree w := by
  decide

/-- Every positive keyword of the program is border-free. -/
theorem borderFree_positives : ∀ w ∈ positive_keywords, BorderFree w := by
  decide

theorem keyword_total_append (ws : List (List Char)) (s d : List Char)
    (hb : ∀ w ∈ ws, BorderFree w) (hnc : ∀ w ∈ ws, NoCross w d) :
    keyword_total ws (s ++ d) = keyword_total ws s + keyword_total ws d := by
  induction ws with
  | nil => rfl
  | cons w ws ih =>
    have h1 := hb w (List.mem_cons_self w ws)
    have h2 := hnc w (List.mem_cons_self w ws)
    have ihs := ih (fun w hw => hb w (List.mem_cons_of_mem _ hw))
      (fun w hw => hnc w (List.mem_cons_of_mem _ hw))
    simp only [keyword_total, List.map_cons, List.sum_cons] at ihs ⊢
    rw [pyCount_append w s d h1 h2, ihs]
    omega

theorem keyword_total_eq_countAll (ws : List (List Char))
    (hb : ∀ w ∈ ws, BorderFree w) (s : List Char) :
    keyword_total ws s = (ws.map (fun w => countAll w s)).sum := by
  induction ws with
  | nil => rfl
  | cons w ws ih =>
    have ihs := ih (fun w hw => hb w (List.mem_cons_of_mem _ hw))
    simp only [keyword_total, List.map_cons, List.sum_cons] at ihs ⊢
    rw [pyCount_eq_countAll w s (hb w (List.mem_cons_self w ws)), ihs]

/-- Appending text that no keyword occurrence can straddle shifts the nominal
score by the keyword totals of the appended text. -/
theorem nominal_append (t d : List Char)
    (h1 : ∀ w ∈ negative_keywords, NoCross w (pyLower d))
    (h2 : ∀ w ∈ positive_keywords, NoCross w (pyLower d)) :
    nominal_score (t ++ d) = nominal_score t
      - (keyword_total negative_keywords (pyLower d) : Int) * 8
      + (keyword_total positive_keywords (pyLower d) : Int) * 5 := by
  unfold nominal_score negative_count positive_count
  rw [show pyLower (t ++ d) = pyLower t ++ pyLower d from List.map_append _ t d]
  rw [keyword_total_append _ _ _ borderFree_negatives h1,
      keyword_total_append _ _ _ borderFree_positives h2]
  push_cast
  ring

theorem clamp_mono {a b : Int} (h : a ≤ b) :
    max 0 (min 100 a) ≤ max 0 (min 100 b) :=
  max_le_max (le_refl 0) (min_le_min (le_refl 100) h)

theorem clamp_id {x : Int} (h1 : 0 ≤ x) (h2 : x ≤ 100) :
    max 0 (min 100 x) = x := by
  rw [min_eq_right h2, max_eq_right h1]

/-! ### Trimming lemmas -/

theorem head_dropWhile_false (p : Char → Bool) (l : List Char) (c : Char)
    (h : (l.dropWhile p).head? = some c) : p c = false := by
  induction l with
  | nil => simp [List.dropWhile] at h
  | cons a l ih =>
    rw [List.dropWhile_cons] at h
    by_cases hpa : p a = true
    · rw [if_pos hpa] at h
      exact ih h
    · rw [if_neg hpa] at h
      simp only [List.head?_cons, Option.some.injEq] at h
      rw [← h]
      exact Bool.eq_false_iff.mpr hpa

theorem dropWhile_eq_self_of_head (p : Char → Bool) (l : List Char)
    (h : ∀ c, l.head? = some c → p c = false) : l.dropWhile p = l := by
  cases l with
  | nil => rfl
  | cons a l =>
    rw [List.dropWhile_cons, if_neg]
    simp [h a rfl]

theorem dropWhile_idem (p : Char → Bool) (l : List Char) :
    (l.dropWhile p).dropWhile p = l.dropWhile p :=
  dropWhile_eq_self_of_head p _ (fun c hc => head_dropWhile_false p l c hc)

/-- The first character of a stripped string is not whitespace. -/
theorem pyStrip_head_not_ws (s : List Char) (c : Char)
    (h : (pyStrip s).head? = some c) : Char.isWhitespace c = false := by
  have hsplit := List.takeWhile_append_dropWhile Char.isWhitespace
    (List.reverse (List.dropWhile Char.isWhitespace s))
  have h2 : pyStrip s ++
      (List.takeWhile Char.isWhitespace
        (List.reverse (List.dropWhile Char.isWhitespace s))).reverse
      = List.dropWhile Char.isWhitespace s := by
    have h3 := congrArg List.reverse hsplit
    rw [List.reverse_append, List.reverse_reverse] at h3
    exact h3
  cases hps : pyStrip s with
  | nil => rw [hps] at h; simp at h
  | cons a r =>
    rw [hps] at h
    simp only [List.head?_cons, Option.some.injEq] at h
    rw [hps, h] at h2
    refine head_dropWhile_false Char.isWhitespace s c ?_
    rw [← h2]
    rfl

/-- Stripping is idempotent. -/
theorem pyStrip_idem (s : List Char) : pyStrip (pyStrip s) = pyStrip s := by
  have h1 : (pyStrip s).dropWhile Char.isWhitespace = pyStrip s :=
    dropWhile_eq_self_of_head _ _ (fun c hc => pyStrip_head_not_ws s c hc)
  have h2 : (pyStrip s).reverse.dropWhile Char.isWhitespace
      = (pyStrip s).reverse := by
    have hrev : (pyStrip s).reverse
        = List.dropWhile Char.isWhitespace
            (List.reverse (List.dropWhile Char.isWhitespace s)) := by
      unfold pyStrip
      rw [List.reverse_reverse]
    rw [hrev]
    exact dropWhile_idem _ _
  show (((pyStrip s).dropWhile Char.isWhitespace).reverse.dropWhile
      Char.isWhitespace).reverse = pyStrip s
  rw [h1, h2, List.reverse_reverse]

/-- On input with no leading or trailing fence, the clean-up just strips. -/
theorem strip_code_fences_no_fence (s : List Char)
    (h2 : ¬ ("```".data <+: pyStrip s)) (h3 : ¬ ("```".data <:+ pyStrip s)) :
    strip_code_fences s = pyStrip s := by
  have h1 : ¬ ("```python".data <+: pyStrip s) := by
    intro hcon
    exact h2 ((show "```".data <+: "```python".data by decide).trans hcon)
  unfold strip_code_fences dropLeadingPython dropLeadingFence dropTrailingFence
  rw [if_neg h1, if_neg h2, if_neg h3]
  exact pyStrip_idem s

/-! ### Claim theorems -/

/-- C1: for every input string `t`, `calculate_quality_score t` equals
clamp(70 - 8*N + 5*P, 0, 100), where `N` and `P` are the total numbers of
substring occurrences (overlapping occurrences all counted, no word
boundaries) of the twelve negative and eight positive terms in the
lower-cased `t`.  Python counts non-overlapping occurrences, but every
keyword is border-free, so the two counts coincide. -/
theorem C1_score_matches_substring_spec (t : List Char) :
    calculate_quality_score t = spec_quality_score t := by
  unfold calculate_quality_score nominal_score negative_count positive_count
    base_score spec_quality_score
  rw [keyword_total_eq_countAll negative_keywords borderFree_negatives,
      keyword_total_eq_countAll positive_keywords borderFree_positives]
  have harith : ∀ a b : Int,
      70 - a * 8 + b * 5 = 70 - 8 * a + 5 * b := by
    intro a b
    ring
  rw [harith]

/-- C2: the score is always clamped into [0, 100]; in particular this holds
at a text whose nominal pre-clamp value is -40 (fifteen times "bug" and
twice "good") and at one whose nominal value is +140 (fourteen times
"good"). -/
theorem C2_score_clamped_to_unit_interval :
    (∀ t : List Char,
      0 ≤ calculate_quality_score t ∧ calculate_quality_score t ≤ 100) ∧
    nominal_score
      "bugbugbugbugbugbugbugbugbugbugbugbugbugbugbuggoodgood".data = -40 ∧
    calculate_quality_score
      "bugbugbugbugbugbugbugbugbugbugbugbugbugbugbuggoodgood".data = 0 ∧
    nominal_score
      "goodgoodgoodgoodgoodgoodgoodgoodgoodgoodgoodgoodgoodgood".data = 140 ∧
    calculate_quality_score
      "goodgoodgoodgoodgoodgoodgoodgoodgoodgoodgoodgoodgoodgood".data = 100 := by
  refine ⟨fun t => ⟨le_max_left _ _, ?_⟩, by decide, by decide, by decide,
    by decide⟩
  exact max_le (by norm_num) (min_le_left _ _)

/-- C8: on the empty string both keyword counts are zero and the function
returns the base score 70 without any error condition, which is labelled
"Good". -/
theorem C8_empty_text_base_score :
    negative_count [] = 0 ∧ positive_count [] = 0 ∧
    calculate_quality_score [] = 70 ∧ get_score_label 70 = "Good" := by
  decide

/-- C4: the label mapping is evaluated high to low with lower bounds closed:
"Excellent" for 85 and above, "Good" on [70, 85), "Fair" on [50, 70), and
"Needs Improvement" below 50; the six boundary values behave accordingly. -/
theorem C4_label_thresholds :
    (∀ s : Int,
      (85 ≤ s → get_score_label s = "Excellent") ∧
      (70 ≤ s → s < 85 → get_score_label s = "Good") ∧
      (50 ≤ s → s < 70 → get_score_label s = "Fair") ∧
      (s < 50 → get_score_label s = "Needs Improvement")) ∧
    get_score_label 85 = "Excellent" ∧ get_score_label 84 = "Good" ∧
    get_score_label 70 = "Good" ∧ get_score_label 69 = "Fair" ∧
    get_score_label 50 = "Fair" ∧ get_score_label 49 = "Needs Improvement" := by
  refine ⟨fun s => ?_, by decide, by decide, by decide, by decide, by decide,
    by decide⟩
  unfold get_score_label
  split_ifs with h1 h2 h3 <;>
    exact ⟨fun ha => by first | rfl | omega,
           fun hb1 hb2 => by first | rfl | omega,
           fun hc1 hc2 => by first | rfl | omega,
           fun hd => by first | rfl | omega⟩

/-- C4 witness: the threshold theorem applied at the concrete scores 90 and
60. -/
theorem C4_label_thresholds_witness :
    get_score_label 90 = "Excellent" ∧ get_score_label 60 = "Fair" :=
  ⟨(C4_label_thresholds.1 90).1 (by norm_num),
   (C4_label_thresholds.1 60).2.2.1 (by norm_num) (by norm_num)⟩

/-- C10: `get_score_label` and `get_score_class` partition the integers
identically (matching labels and CSS classes pairwise), and each always
returns one of its four values. -/
theorem C10_label_class_agree : ∀ s : Int,
    ((get_score_label s = "Excellent" ↔ get_score_class s = "score-excellent") ∧
     (get_score_label s = "Good" ↔ get_score_class s = "score-good") ∧
     (get_score_label s = "Fair" ↔ get_score_class s = "score-fair") ∧
     (get_score_label s = "Needs Improvement" ↔
        get_score_class s = "score-poor")) ∧
    (get_score_label s = "Excellent" ∨ get_score_label s = "Good" ∨
     get_score_label s = "Fair" ∨ get_score_label s = "Needs Improvement") ∧
    (get_score_class s = "score-excellent" ∨ get_score_class s = "score-good" ∨
     get_score_class s = "score-fair" ∨ get_score_class s = "score-poor") := by
  intro s
  unfold get_score_label get_score_class
  split_ifs <;> exact by decide

/-- C3 counterexample: adding one more instance of the positive keyword
"efficient" to the text "in" (inserting it after "in", leaving the rest
fixed) produces "inefficient" and strictly DECREASES the score from 70 to
67, because the insertion also creates an occurrence of the negative keyword
"inefficient".  This refutes the claim that adding a positive keyword
anywhere never decreases the score (and with it the claimed monotonicity for
arbitrary insertion positions). -/
theorem C3_insertion_counterexample :
    "efficient".data ∈ positive_keywords ∧
    "in".data ++ "efficient".data = "inefficient".data ∧
    calculate_quality_score "inefficient".data <
      calculate_quality_score "in".data := by
  decide

/-- C3 amended: monotonicity holds for appending a keyword at the end of the
text, separated by a space: for every text `t`, appending one more instance
of a negative keyword (as " " ++ keyword) never increases the score, and
appending a positive keyword never decreases it. -/
theorem C3_append_keyword_monotone (t w : List Char) :
    (w ∈ negative_keywords →
      calculate_quality_score (t ++ ' ' :: w) ≤ calculate_quality_score t) ∧
    (w ∈ positive_keywords →
      calculate_quality_score t ≤ calculate_quality_score (t ++ ' ' :: w)) := by
  constructor
  · intro hw
    have hmaster : ∀ w0 ∈ negative_keywords,
        (∀ w1 ∈ negative_keywords, NoCross w1 (pyLower (' ' :: w0))) ∧
        (∀ w1 ∈ positive_keywords, NoCross w1 (pyLower (' ' :: w0))) ∧
        5 * (keyword_total positive_keywords (pyLower (' ' :: w0)) : Int) ≤
          8 * (keyword_total negative_keywords (pyLower (' ' :: w0)) : Int) := by
      decide
    have h := hmaster w hw
    have hnom := nominal_append t (' ' :: w) h.1 h.2.1
    unfold calculate_quality_score
    apply clamp_mono
    have hkey := h.2.2
    omega
  · intro hw
    have hmaster : ∀ w0 ∈ positive_keywords,
        (∀ w1 ∈ negative_keywords, NoCross w1 (pyLower (' ' :: w0))) ∧
        (∀ w1 ∈ positive_keywords, NoCross w1 (pyLower (' ' :: w0))) ∧
        8 * (keyword_total negative_keywords (pyLower (' ' :: w0)) : Int) ≤
          5 * (keyword_total positive_keywords (pyLower (' ' :: w0)) : Int) := by
      decide
    have h := hmaster w hw
    have hnom := nominal_append t (' ' :: w) h.1 h.2.1
    unfold calculate_quality_score
    apply clamp_mono
    have hkey := h.2.2
    omega

/-- C3 witness: the amended monotonicity applied at the concrete text "x"
with the negative keyword "bug" and the positive keyword "good". -/
theorem C3_append_keyword_monotone_witness :
    calculate_quality_score ("x".data ++ ' ' :: "bug".data) ≤
      calculate_quality_score "x".data ∧
    calculate_quality_score "x".data ≤
      calculate_quality_score ("x".data ++ ' ' :: "good".data) :=
  ⟨(C3_append_keyword_monotone "x".data "bug".data).1 (by decide),
   (C3_append_keyword_monotone "x".data "good".data).2 (by decide)⟩

/-- C9: appending " inefficient" to any text changes the nominal (pre-clamp)
score by exactly -3, because the appended text contains one occurrence of
the negative keyword "inefficient" and simultaneously one occurrence of the
positive keyword "efficient" (substring counting); consequently, whenever
both nominal values lie in [0, 100], the clamped score drops by exactly 3. -/
theorem C9_inefficient_appends_minus_three (t : List Char) :
    nominal_score (t ++ " inefficient".data) = nominal_score t - 3 ∧
    (0 ≤ nominal_score t → nominal_score t ≤ 100 →
     0 ≤ nominal_score (t ++ " inefficient".data) →
     nominal_score (t ++ " inefficient".data) ≤ 100 →
     calculate_quality_score (t ++ " inefficient".data) =
       calculate_quality_score t - 3) := by
  have hnom := nominal_append t " inefficient".data (by decide) (by decide)
  have hktn : keyword_total negative_keywords (pyLower " inefficient".data)
      = 1 := by decide
  have hktp : keyword_total positive_keywords (pyLower " inefficient".data)
      = 1 := by decide
  rw [hktn, hktp] at hnom
  constructor
  · omega
  · intro ha hb hc hd
    unfold calculate_quality_score
    rw [clamp_id hc hd, clamp_id ha hb]
    omega

/-- C9 witness: at the text "good good" (nominal 80) both nominal values lie
in [0, 100] and the score drops by exactly 3. -/
theorem C9_inefficient_appends_minus_three_witness :
    calculate_quality_score ("good good".data ++ " inefficient".data) =
      calculate_quality_score "good good".data - 3 :=
  (C9_inefficient_appends_minus_three "good good".data).2
    (by decide) (by decide) (by decide) (by decide)

/-- C5 counterexample: the code does NOT remove an arbitrary language tag
after a leading fence marker — only the tag "python" is handled.  On the
input "```js\ncode\n```" the claimed contract (remove the whole leading
marker including the language tag, remove the trailing marker, trim) would
return "code", but the code removes only the three backticks and returns
"js\ncode". -/
theorem C5_language_tag_counterexample :
    strip_code_fences "```js\ncode\n```".data = "js\ncode".data ∧
    "js\ncode".data ≠ "code".data := by
  decide

/-- C5 amended: the normalization operates on the trimmed response; a
leading marker "```python" (nine characters, tag included) is removed; after
that, a leading bare marker "```" is removed if one is present; if the
remaining text ends with "```", that trailing marker is removed — whether or
not any leading marker was present; the result is returned trimmed; and when
no fence markers are present the trimmed text is returned unchanged.
Language tags other than "python" are not part of the removed leading
marker.  The three leading-marker cases below (a "```python" marker with an
arbitrary remainder, a bare "```" marker not followed by "python", and no
leading marker at all) are exhaustive, and each concludes with the
conditional trailing-marker removal and final trim. -/
theorem C5_fence_normalization (r : List Char) :
    (strip_code_fences r = pyStrip (strip_code_fences r)) ∧
    (¬ ("```".data <+: pyStrip r) → ¬ ("```".data <:+ pyStrip r) →
      strip_code_fences r = pyStrip r) ∧
    (∀ body, pyStrip r = "```python".data ++ body →
      strip_code_fences r = pyStrip (dropTrailingFence (dropLeadingFence body))) ∧
    (∀ body, pyStrip r = "```".data ++ body →
      ¬ ("python".data <+: body) →
      strip_code_fences r = pyStrip (dropTrailingFence body)) ∧
    (¬ ("```".data <+: pyStrip r) →
      strip_code_fences r = pyStrip (dropTrailingFence (pyStrip r))) := by
  refine ⟨?_, ?_, ?_, ?_, ?_⟩
  · exact (pyStrip_idem
      (dropTrailingFence (dropLeadingFence (dropLeadingPython (pyStrip r))))).symm
  · intro h2 h3
    exact strip_code_fences_no_fence r h2 h3
  · intro body hb
    unfold strip_code_fences dropLeadingPython
    rw [hb, if_pos (List.prefix_append _ body),
        show (9 : Nat) = ("```python".data).length from rfl, List.drop_left]
  · intro body hb hnpy
    have hnot : ¬ ("```python".data <+: "```".data ++ body) := by
      intro hcon
      refine hnpy ?_
      have h9 : "```".data ++ "python".data <+: "```".data ++ body := by
        exact (show "```python".data = "```".data ++ "python".data by rfl) ▸ hcon
      exact (List.prefix_append_right_inj "```".data).mp h9
    unfold strip_code_fences dropLeadingPython dropLeadingFence
    rw [hb, if_neg hnot, if_pos (List.prefix_append _ body),
        show (3 : Nat) = ("```".data).length from rfl, List.drop_left]
  · intro h2
    have h1 : ¬ ("```python".data <+: pyStrip r) := by
      intro hcon
      exact h2 ((show "```".data <+: "```python".data by decide).trans hcon)
    unfold strip_code_fences dropLeadingPython dropLeadingFence
    rw [if_neg h1, if_neg h2]

/-- C5 witness: the amended case analysis applied at three concrete
responses: a python-tagged fenced block (normalizes to "x"), a text with a
trailing fence but no leading fence (normalizes to "x"), and a double
marker "```python```" (normalizes to the empty string). -/
theorem C5_fence_normalization_witness :
    strip_code_fences "```python\nx\n```".data = "x".data ∧
    strip_code_fences "x\n```".data = "x".data ∧
    strip_code_fences "```python```".data = [] := by
  refine ⟨?_, ?_, ?_⟩
  · have h := (C5_fence_normalization "```python\nx\n```".data).2.2.1
      "\nx\n```".data (by decide)
    rw [h]
    decide
  · have h := (C5_fence_normalization "x\n```".data).2.2.2.2 (by decide)
    rw [h]
    decide
  · have h := (C5_fence_normalization "```python```".data).2.2.1
      "```".data (by decide)
    rw [h]
    decide

/-- C6: on any string whose trimmed form neither starts with "```python" or
"```" nor ends with "```", normalization returns the trimmed string
unchanged, so normalizing twice equals normalizing once; and normalizing
"```python\ncode\n```" yields exactly "code". -/
theorem C6_no_fence_idempotent :
    (∀ s : List Char,
      ¬ ("```python".data <+: pyStrip s) → ¬ ("```".data <+: pyStrip s) →
      ¬ ("```".data <:+ pyStrip s) →
      strip_code_fences s = pyStrip s ∧
      strip_code_fences (strip_code_fences s) = strip_code_fences s) ∧
    strip_code_fences "```python\ncode\n```".data = "code".data := by
  constructor
  · intro s hpy h2 h3
    have h := strip_code_fences_no_fence s h2 h3
    refine ⟨h, ?_⟩
    rw [h]
    have h2s : ¬ ("```".data <+: pyStrip (pyStrip s)) := by
      rw [pyStrip_idem]
      exact h2
    have h3s : ¬ ("```".data <:+ pyStrip (pyStrip s)) := by
      rw [pyStrip_idem]
      exact h3
    rw [strip_code_fences_no_fence (pyStrip s) h2s h3s, pyStrip_idem]
  · decide

/-- C6 witness: the no-fence case applied at the concrete string "hello". -/
theorem C6_no_fence_idempotent_witness :
    strip_code_fences "hello".data = pyStrip "hello".data ∧
    strip_code_fences (strip_code_fences "hello".data) =
      strip_code_fences "hello".data :=
  C6_no_fence_idempotent.1 "hello".data (by decide) (by decide) (by decide)

/-- C7 counterexample: the claimed "if and only if" fails in the only-if
direction: when the external call succeeds with a content that itself begins
with "Error during code review:", `review_code` returns a string beginning
with that text although no exception was thrown. -/
theorem C7_success_error_text_counterexample :
    review_code (Except.ok "Error during code review: boom") =
      "Error during code review: boom" ∧
    "Error during code review:".data <+:
      (review_code (Except.ok "Error during code review: boom")).data := by
  constructor
  · rfl
  · decide

/-- C7 amended: if the external chat-completion call throws, `review_code`
returns exactly "Error during code review: " followed by the exception text
and `refactor_code` returns exactly "# Error during refactoring: " followed
by the exception text; the exception is never propagated (both functions are
total); and on a successful call nothing is prepended: `review_code` returns
the response content unchanged and `refactor_code` returns the
fence-stripped content. -/
theorem C7_error_placeholder :
    (∀ e : String,
      review_code (Except.error e) = "Error during code review: " ++ e ∧
      refactor_code (Except.error e) = "# Error during refactoring: " ++ e) ∧
    (∀ c : String,
      review_code (Except.ok c) = c ∧
      refactor_code (Except.ok c) = String.mk (strip_code_fences c.data)) :=
  ⟨fun _ => ⟨rfl, rfl⟩, fun _ => ⟨rfl, rfl⟩⟩
